import Mathlib

/-!
# Verification of symfony-cli/phpstore: version store and resolution engine

Shallow embedding of the phpstore Go package. Go strings are modelled as
`List Char` (all strings handled by the claims are ASCII, where Go's byte
indices coincide with character indices). Go's `(value, err)` and panic
behaviours are modelled with `Option`. Filesystem and process probing are
external to the store logic and are passed in as explicit data (record lists,
symlink-resolution functions, directory-signal environments).
-/

namespace PhpStore

/-- Shorthand: the character-list contents of a string literal. -/
def str (s : String) : List Char := s.data

/-- The dot character, used pervasively by the version matcher. -/
def dotChar : Char := '.'

/-- The dash character, used by the flavor-qualified prefix syntax. -/
def dashChar : Char := '-'

/-- Model of Go `strings.IndexByte(s, c)`: index of the first occurrence of
`c` in `s`, or `-1` when absent. -/
def goIndexByte : List Char → Char → Int
  | [], _ => -1
  | x :: xs, c =>
    if x = c then 0
    else
      let r := goIndexByte xs c
      if r = -1 then -1 else r + 1

/-- Model of Go `strings.LastIndexByte(s, c)`: index of the last occurrence of
`c` in `s`, or `-1` when absent. -/
def goLastIndexByte : List Char → Char → Int
  | [], _ => -1
  | x :: xs, c =>
    let r := goLastIndexByte xs c
    if r ≠ -1 then r + 1
    else if x = c then 0 else -1

/-- Model of Go `strings.Split(s, ".")`: dot-separated parts, empty parts
kept; the empty string yields one empty part. -/
def splitOnDot : List Char → List (List Char)
  | [] => [[]]
  | c :: rest =>
    if c = dotChar then [] :: splitOnDot rest
    else
      match splitOnDot rest with
      | p :: ps => (c :: p) :: ps
      | [] => [[c]]

/-- Model of Go `strings.Join(parts, ".")`. -/
def joinDot : List (List Char) → List Char
  | [] => []
  | [p] => p
  | p :: ps => p ++ dotChar :: joinDot ps

/-- Model of a Go slice expression `xs[lo:hi]` on a freshly allocated slice
(`len = cap`): `none` models the runtime panic when `hi` exceeds the
capacity or `lo > hi`. -/
def goSlice {α : Type} (xs : List α) (lo hi : Nat) : Option (List α) :=
  if lo ≤ hi ∧ hi ≤ xs.length then some ((xs.drop lo).take (hi - lo)) else none

/-- Numeric value of a digit-character string (the way `strconv.ParseInt`
reads a decimal numeral). -/
def digitsToNat (p : List Char) : Nat :=
  p.foldl (fun acc c => 10 * acc + (c.toNat - 48)) 0

/-- The character class `[0-9A-Za-z\-~]` of go-version's pre-release and
build-metadata segments. -/
def isPreChar (c : Char) : Bool :=
  c.isDigit || c.isAlpha || c = dashChar || c = '~'

/-- The leading character class `[A-Za-z\-~]` of an undashed pre-release. -/
def isAlphaPreChar (c : Char) : Bool :=
  c.isAlpha || c = dashChar || c = '~'

/-- A dotted identifier body `[0-9A-Za-z\-~]+(\.[0-9A-Za-z\-~]+)*`: every
dot-separated part non-empty and within the class. -/
def dottedBody (l : List Char) : Bool :=
  (splitOnDot l).all (fun p => !p.isEmpty && p.all isPreChar)

/-- go-version's optional pre-release: either `-` followed by any dotted
identifier body (covering its digit-leading branch and its dash-consuming
alpha branch), or an undashed body whose first character is in
`[A-Za-z\-~]`. -/
def preOk (p : List Char) : Bool :=
  match p with
  | [] => true
  | c :: rest =>
    (c = dashChar && dottedBody rest) || (isAlphaPreChar c && dottedBody p)

/-- The remainder after the numeric core of a go-version string: an optional
pre-release, then optional `+`-prefixed build metadata. The classes exclude
`+`, so splitting at the first `+` is exact. -/
def goVersionTail (r : List Char) : Bool :=
  let i := goIndexByte r '+'
  if i = -1 then preOk r
  else preOk (r.take i.toNat) && dottedBody (r.drop (i + 1).toNat)

/-- The maximal numeric core `[0-9]+(\.[0-9]+)*` of a go-version string: its
dot-separated digit segments plus the unconsumed remainder. Maximal munch is
exact here: a shorter core leaves a remainder starting with `.` or a digit,
which no pre-release/metadata continuation accepts. `fuel` (instantiated
with the list length, an upper bound on the recursion depth) makes the
recursion structural. -/
def numCore (fuel : Nat) (l : List Char) : List (List Char) × List Char :=
  match fuel with
  | 0 => ([], l)
  | fuel + 1 =>
    let d := l.takeWhile Char.isDigit
    let rest := l.dropWhile Char.isDigit
    match rest with
    | c1 :: c2 :: rest2 =>
      if c1 = dotChar ∧ c2.isDigit = true then
        let (segs, rem) := numCore fuel (c2 :: rest2)
        (d :: segs, rem)
      else ([d], rest)
    | _ => ([d], rest)

/-- Model of hashicorp/go-version `NewVersion`: acceptance by the anchored
regexp `v?([0-9]+(\.[0-9]+)*?)(-<pre> | -?<alpha-pre>)?(\+<meta>)?` — an
optional `v` prefix, the numeric core, an optional pre-release and optional
build metadata — with each numeric segment parsed by `strconv.ParseInt`
(failing past the Int64 maximum) and the segment list zero-padded to at
least three entries, exactly as `newVersion` does. Returns the segments;
`none` is the `Malformed version` error. -/
def goNewVersion (v : List Char) : Option (List Nat) :=
  let v1 := if v.head? = some 'v' then v.tail else v
  match v1.head? with
  | none => none
  | some c =>
    if c.isDigit then
      let (segs, rest) := numCore v1.length v1
      if goVersionTail rest then
        let nums := segs.map digitsToNat
        if nums.all (fun n => n ≤ 9223372036854775807) then
          some (nums ++ List.replicate (3 - nums.length) 0)
        else none
      else none
    else none

/-- Model of hashicorp/go-version `Version.String()`: the canonical rendition
of the parsed segments (its documentation: prefixed zeroes are canonicalized,
`1.04.0 => 1.4.0`). -/
def goVersionString (segs : List Nat) : List Char :=
  joinDot (segs.map (fun n => (Nat.repr n).data))

/-- go-version `LessThan`-induced `≤` on equal-length segment lists
(segment-wise numeric lexicographic comparison). -/
def segLE : List Nat → List Nat → Bool
  | [], _ => true
  | _ :: _, [] => false
  | a :: as, b :: bs => if a < b then true else if a = b then segLE as bs else false

/-- One installed PHP runtime (`Version` in version.go); `fullVersion` holds
the parsed numeric segments of `FullVersion`. -/
structure Version where
  fullVersion : List Nat := []
  version : List Char := []
  path : List Char := []
  phpPath : List Char := []
  fpmPath : List Char := []
  cgiPath : List Char := []
  phpConfigPath : List Char := []
  phpizePath : List Char := []
  phpdbgPath : List Char := []
  isSystem : Bool := false
  frankenPHP : Bool := false
deriving DecidableEq, Repr, Inhabited

/-- The PHP store (`PHPStore` in store.go): record list, the `seen`
dedup map (modelled as an association list with Go-map overwrite semantics:
newest binding first), and the PATH-default record. -/
structure Store where
  versions : List Version := []
  seen : List (List Char × Nat) := []
  pathVersion : Option Version := none
deriving DecidableEq, Repr, Inhabited

/-- A store with no records (the state before discovery). -/
def emptyStore : Store := {}

/-- Result quadruple of `bestVersion`/`fallbackVersion`:
`(*Version, source, warning, error)`. -/
structure BVResult where
  version : Option Version
  source : List Char
  warning : List Char
  error : Option (List Char)
deriving DecidableEq, Repr, Inhabited

/-- The reverse scan `for i := len(s.versions) - 1; i >= 0; i--`: the first
element from the end satisfying `p`, i.e. the last match in list order. -/
def findFromEnd {α : Type} (p : α → Bool) : List α → Option α
  | [] => none
  | x :: xs =>
    match findFromEnd p xs with
    | some r => some r
    | none => if p x then some x else none

/-- The warning built when an exact patch version is missing
(store.go line 172). -/
def patchWarning (vp source newVP : List Char) : List Char :=
  str "the current dir requires PHP " ++ vp ++ str " (" ++ source ++
    str "), but this version is not available: fallback to " ++ newVP

/-- The warning built when the prefix scan finds nothing
(store.go line 184). -/
def noMatchWarning (vp source : List Char) : List Char :=
  str "the current dir requires PHP " ++ vp ++ str " (" ++ source ++
    str "), but this version is not available"

/-- `fallbackVersion` (store.go lines 187-195): the PATH-default record when
recorded, else the last (highest) record, else the fatal error; the warning
argument is passed through unchanged. -/
def fallbackVersion (s : Store) (warning : List Char) : BVResult :=
  match s.pathVersion with
  | some pv => ⟨some pv, str "default version in $PATH", warning, none⟩
  | none =>
    match s.versions.getLast? with
    | none => ⟨none, [], warning, some (str "no PHP binaries detected")⟩
    | some v => ⟨some v, str "most recent PHP version", warning, none⟩

/-- The prefix scan and fallback shared by every `bestVersion` path
(store.go lines 176-184): scan the sorted list from the end for the first
record whose version string has `vp` as a prefix; on a miss, fall back with a
freshly built no-match warning. -/
def bestVersionScan (s : Store) (vp source warning : List Char) : BVResult :=
  match findFromEnd (fun v => vp.isPrefixOf v.version) s.versions with
  | some v => ⟨some v, source, warning, none⟩
  | none => fallbackVersion s (noMatchWarning vp source)

/-- `bestVersion` (store.go lines 146-185). The Go code recomputes `pos`
after the `"99"` truncation, but `pos` is only read again on the
patch-version branch, which that truncation has excluded, so the
recomputation is dropped here without behavioural change. -/
def bestVersion (s : Store) (versionPrefix source : List Char) : BVResult :=
  let pos : Int := goLastIndexByte versionPrefix dotChar
  if pos ≠ goIndexByte versionPrefix dotChar then
    if versionPrefix.drop (pos + 1).toNat = str "99" then
      bestVersionScan s (versionPrefix.take pos.toNat) source []
    else
      match s.versions.find? (fun v => v.version = versionPrefix) with
      | some v => ⟨some v, source, [], none⟩
      | none =>
        let newVP := versionPrefix.take pos.toNat
        bestVersionScan s newVP source (patchWarning versionPrefix source newVP)
  else
    bestVersionScan s versionPrefix source []

/-- Lookup in the `seen` map (Go map read: the newest binding wins, which the
association list realizes by scanning from the head). -/
def seenLookup (seen : List (List Char × Nat)) (k : List Char) : Option Nat :=
  (seen.find? (fun e => e.1 = k)).map (fun e => e.2)

/-- The serving-capability score computed inside `addVersion`
(store.go lines 245-256): FPM-capable 2, CGI-capable 1, CLI-only 0. -/
def capScore (v : Version) : Nat :=
  if v.fpmPath ≠ [] then 2 else if v.cgiPath ≠ [] then 1 else 0

/-- `addVersion` (store.go lines 229-261). `sl` models
`filepath.EvalSymlinks` with errors collapsed to the empty string, exactly as
the Go code does (`sl, _ := filepath.EvalSymlinks(...)`). Returns the updated
store and the record's index. -/
def addVersion (sl : List Char → List Char) (s : Store) (v : Version) :
    Store × Nat :=
  let slv := sl v.phpPath
  let found :=
    match seenLookup s.seen v.phpPath with
    | some i => some i
    | none => if slv ≠ [] then seenLookup s.seen slv else none
  match found with
  | none =>
    let vs := s.versions ++ [v]
    let n := vs.length - 1
    let seen1 := (v.phpPath, n) :: s.seen
    let seen2 := if slv ≠ [] then (slv, n) :: seen1 else seen1
    ({ s with versions := vs, seen := seen2 }, n)
  | some i =>
    let cur := s.versions.getD i default
    if capScore v > capScore cur then
      ({ s with versions := s.versions.set i v }, i)
    else (s, i)

/-- Feed a list of probe-yielded records through `addVersion` (the
`addFromDir`/`doDiscover` sweeps). -/
def addAll (sl : List Char → List Char) (s : Store) (vs : List Version) :
    Store :=
  vs.foldl (fun st v => (addVersion sl st v).1) s

/-- One iteration of the PATH loop of `discover` (part_000 lines 44-54): add
the record, and when no PATH default is recorded yet, flag the record stored
at the returned index as the system default (the Go code mutates the stored
record through the shared pointer, so both `versions[idx]` and `pathVersion`
see the flag). -/
def addPathRecord (sl : List Char → List Char) (st : Store) (v : Version) :
    Store :=
  let (s1, idx) := addVersion sl st v
  match s1.pathVersion with
  | some _ => s1
  | none =>
    match s1.versions.get? idx with
    | none => s1
    | some w =>
      let w1 := { w with isSystem := true }
      { s1 with versions := s1.versions.set idx w1, pathVersion := some w1 }

/-- `discover` (part_000 lines 38-55) with the filesystem probes abstracted
into their yields: `defaults` is everything `doDiscover` yields (in order),
`pathRecs` everything the PATH scan yields (in order). The probes construct
records with `IsSystem` unset. -/
def discover (sl : List Char → List Char)
    (defaults pathRecs : List Version) : Store :=
  pathRecs.foldl (addPathRecord sl) (addAll sl emptyStore defaults)

/-- Ascending insertion by parsed version. -/
def insertSorted (v : Version) : List Version → List Version
  | [] => [v]
  | w :: ws =>
    if segLE v.fullVersion w.fullVersion then v :: w :: ws
    else w :: insertSorted v ws

/-- A sort realizing `sort.Sort(s.versions)` with `Less` comparing
`FullVersion` (`sort.Sort` is unstable; on records with distinct versions any
correct sort, this one included, produces the same list). -/
def sortVersions : List Version → List Version
  | [] => []
  | v :: vs => insertSorted v (sortVersions vs)

/-- The cache branch of `loadVersions` (store.go lines 203-217): re-derive
each cached record's parsed version, skipping records that fail to parse;
any record flagged `is_system` becomes the PATH default; finally sort. The
cached records' `is_system` flags are taken as-is. -/
def loadVersions (cache : List Version) : Store :=
  let step := fun (st : Store) (v : Version) =>
    match goNewVersion v.version with
    | none => st
    | some segs =>
      let v1 := { v with fullVersion := segs }
      { st with versions := st.versions ++ [v1],
                pathVersion := if v1.isSystem then some v1 else st.pathVersion }
  let st := cache.foldl step emptyStore
  { st with versions := sortVersions st.versions }

/-- Count of records carrying the system-default flag. -/
def flaggedCount (s : Store) : Nat :=
  s.versions.countP (fun v => v.isSystem)

/-- `validateVersion` (part_000 lines 289-300): a vernum must be exactly 5
characters `XYYZZ`; it is decomposed as `X.YY.ZZ`
(`fmt.Sprintf("%c.%s.%s", v[0], v[1:3], v[3:5])`) and handed to go-version. -/
def validateVersion (v : List Char) : Option (List Nat) :=
  if v.length ≠ 5 then none
  else
    goNewVersion (v.take 1 ++ dotChar ::
      ((v.drop 1).take 2 ++ dotChar :: (v.drop 3).take 2))

/-- `normalizeVersion` (part_000 lines 302-314): banner version `X.Y.Z` back
to a vernum, zero-padding single-digit minor and patch; `none` models the Go
index panic when the input has fewer than three dotted parts (its only
caller feeds it a regexp match of shape `d+.d+.d+`). -/
def normalizeVersion (v : List Char) : Option (List Char) :=
  match splitOnDot v with
  | p0 :: p1 :: p2 :: _ =>
    some (p0 ++ (if p1.length = 1 then str "0" else []) ++ p1 ++
      (if p2.length = 1 then str "0" else []) ++ p2)
  | _ => none

/-- The directory signals consumed by `BestVersionForDir`
(store.go lines 76-137), with the filesystem walks and the external JSON/YAML
parsers abstracted into data:
`forced` is the `FORCED_PHP_VERSION` value (empty = unset); each
`Option (List Char × List Char)` field is the result of the corresponding
`versionForDir` upward walk (trimmed file content and the directory where it
was found; `none` when no ancestor has the file — including files whose
trimmed content is empty, which `readVersion` reports as `nil` because
`bytes.TrimSpace` returns `nil` for all-space input); `workingDirPin` is
`none` as well when `os.Getwd` fails; `composerPlatformPhp` is the
`config.platform.php` field extracted by `json.Unmarshal` (`none` on
unmarshal error, possibly-empty field otherwise), `yamlType` likewise for the
YAML `type` field. -/
structure DirEnv where
  forced : List Char := []
  phpVersionPin : Option (List Char × List Char) := none
  composerJson : Option (List Char × List Char) := none
  workingDirPin : Option (List Char × List Char) := none
  symfonyCloudYaml : Option (List Char × List Char) := none
  platformAppYaml : Option (List Char × List Char) := none
  composerPlatformPhp : List Char → Option (List Char) := fun _ => none
  yamlType : List Char → Option (List Char) := fun _ => none

/-- Stage 5b of `BestVersionForDir` (store.go lines 124-136): the
`.platform.app.yaml` signal, then the no-requirement fallback
(`filepath.Join` is modelled as slash concatenation). -/
def bvfdPlatform (s : Store) (env : DirEnv) : BVResult :=
  match env.platformAppYaml with
  | some (content, d) =>
    match env.yamlType content with
    | some t =>
      if (str "php:").isPrefixOf t then
        bestVersion s (t.drop 4) (str "Platform.sh: " ++ d ++ str "/.platform.app.yaml")
      else fallbackVersion s []
    | none => fallbackVersion s []
  | none => fallbackVersion s []

/-- Stage 5a of `BestVersionForDir` (store.go lines 112-122): the
`.symfony.cloud.yaml` signal. -/
def bvfdCloud (s : Store) (env : DirEnv) : BVResult :=
  match env.symfonyCloudYaml with
  | some (content, d) =>
    match env.yamlType content with
    | some t =>
      if (str "php:").isPrefixOf t then
        bestVersion s (t.drop 4) (str "SymfonyCloud: " ++ d ++ str "/.symfony.cloud.yaml")
      else bvfdPlatform s env
    | none => bvfdPlatform s env
  | none => bvfdPlatform s env

/-- Stage 4 of `BestVersionForDir` (store.go lines 104-110): `.php-version`
walking up from the working directory. -/
def bvfdWdPin (s : Store) (env : DirEnv) : BVResult :=
  match env.workingDirPin with
  | some (content, d) =>
    bestVersion s content (str ".php-version from working dir: " ++ d ++ str "/.php-version")
  | none => bvfdCloud s env

/-- Stage 3 of `BestVersionForDir` (store.go lines 90-102): the
`composer.json` platform-PHP field. -/
def bvfdComposer (s : Store) (env : DirEnv) : BVResult :=
  match env.composerJson with
  | some (content, d) =>
    match env.composerPlatformPhp content with
    | some php =>
      if php ≠ [] then
        bestVersion s php (str "composer.json from current dir: " ++ d ++ str "/composer.json")
      else bvfdWdPin s env
    | none => bvfdWdPin s env
  | none => bvfdWdPin s env

/-- Stage 2 of `BestVersionForDir` (store.go lines 85-88): `.php-version`
walking up from the script directory. -/
def bvfdPin (s : Store) (env : DirEnv) : BVResult :=
  match env.phpVersionPin with
  | some (content, d) =>
    bestVersion s content (str ".php-version from current dir: " ++ d ++ str "/.php-version")
  | none => bvfdComposer s env

/-- `BestVersionForDir` (store.go lines 76-137). Stage 1 is the forced
version: `strings.Join(strings.Split(env, ".")[0:2], ".")` — the `[0:2]`
slice is a runtime panic whenever the variable's value contains no dot,
which `none` models; when the resulting one-or-two-component string parses
as a version, it is delegated, otherwise control falls to stage 2. -/
def bestVersionForDir (s : Store) (env : DirEnv) : Option BVResult :=
  if env.forced ≠ [] then
    match goSlice (splitOnDot env.forced) 0 2 with
    | none => none
    | some parts =>
      match goNewVersion (joinDot parts) with
      | some _ => some (bestVersion s (joinDot parts) (str "internal forced version"))
      | none => some (bvfdPin s env)
  else some (bvfdPin s env)

/-- Modelled from the spec: the flavor-qualifier split. The flavor-aware
matching of the current `bestVersion` (exercised by TestBestVersion's
`"8.0-fpm"` case in store_test.go lines 75-86) is not among the sources, so
it is modelled from spec §4.4: "a dot-separated version prefix of 1-3
components, optionally followed by a non-version suffix (a flavor qualifier)
that is opaque to the numeric matcher but consumed separately when selecting
serving flavor". The qualifier is everything after the first dash. -/
def splitFlavor (vp : List Char) : List Char × List Char :=
  let i := goIndexByte vp dashChar
  if i = -1 then (vp, []) else (vp.take i.toNat, vp.drop (i + 1).toNat)

/-- Modelled from the spec: the `SupportsFlavor` predicate, absent from src/
but pinned down by TestVersion_SupportsFlavor (part_002 lines 142-205): the
empty flavor always matches; a FrankenPHP record supports only
`"frankenphp"`; otherwise `"cli"` always, `"fpm"`/`"cgi"` exactly when the
corresponding server path is present. -/
def supportsFlavor (v : Version) (flavor : List Char) : Bool :=
  if flavor = [] then true
  else if v.frankenPHP then flavor = str "frankenphp"
  else if flavor = str "cli" then true
  else if flavor = str "fpm" then v.fpmPath ≠ []
  else if flavor = str "cgi" then v.cgiPath ≠ []
  else false

/-- Modelled from the spec: the scan step of the flavor-aware `bestVersion`,
identical to `bestVersionScan` except that a record must also support the
requested flavor. -/
def bestVersionFlavorScan (s : Store) (flavor vp source warning : List Char) :
    BVResult :=
  match findFromEnd
      (fun v => vp.isPrefixOf v.version && supportsFlavor v flavor)
      s.versions with
  | some v => ⟨some v, source, warning, none⟩
  | none => fallbackVersion s (noMatchWarning vp source)

/-- Modelled from the spec: the flavor-aware `bestVersion`, absent from src/
(only TestBestVersion exercises it). Per spec §4.4 the flavor qualifier is
split off first, the numeric matching then runs unchanged on the numeric
part with every candidate additionally required to support the flavor. -/
def bestVersionWithFlavor (s : Store) (versionPrefix source : List Char) :
    BVResult :=
  let (vp, flavor) := splitFlavor versionPrefix
  let pos : Int := goLastIndexByte vp dotChar
  if pos ≠ goIndexByte vp dotChar then
    if vp.drop (pos + 1).toNat = str "99" then
      bestVersionFlavorScan s flavor (vp.take pos.toNat) source []
    else
      match s.versions.find?
          (fun v => v.version = vp && supportsFlavor v flavor) with
      | some v => ⟨some v, source, [], none⟩
      | none =>
        let newVP := vp.take pos.toNat
        bestVersionFlavorScan s flavor newVP source
          (patchWarning vp source newVP)
  else
    bestVersionFlavorScan s flavor vp source []

/-- The five test records of TestBestVersion, in ascending version order. -/
def mkRecord (segs : List Nat) (v : String) : Version :=
  { fullVersion := segs, version := v.data,
    phpPath := str "/foo/" ++ v.data ++ str "/bin/php" }

def v7433 : Version := mkRecord [7, 4, 33] "7.4.33"
def v8027 : Version := mkRecord [8, 0, 27] "8.0.27"
def v812 : Version := mkRecord [8, 1, 2] "8.1.2"
def v8114 : Version := mkRecord [8, 1, 14] "8.1.14"
def v821 : Version := mkRecord [8, 2, 1] "8.2.1"

/-- The TestBestVersion store: the five records sorted ascending, no
PATH-default record. -/
def testStore : Store := { versions := [v7433, v8027, v812, v8114, v821] }

example : bestVersion testStore (str "8") (str "testing") =
    ⟨some v821, str "testing", [], none⟩ := by decide

example : bestVersion testStore (str "8.1") (str "testing") =
    ⟨some v8114, str "testing", [], none⟩ := by decide

example : (bestVersion testStore (str "8.0.10") (str "testing")).version =
    some v8027 := by decide

example : (bestVersion testStore (str "8.0.10") (str "testing")).warning ≠ [] := by decide

example : bestVersion testStore (str "8.0.99") (str "testing") =
    ⟨some v8027, str "testing", [], none⟩ := by decide

/-- The record added by TestBestVersion's flavor block: 8.0.26 with an FPM
path. -/
def v8026 : Version :=
  { mkRecord [8, 0, 26] "8.0.26" with fpmPath := str "/foo/8.0.26/bin/php-fpm" }

/-- The TestBestVersion store after adding 8.0.26 and re-sorting. -/
def testStoreFpm : Store :=
  { versions := [v7433, v8026, v8027, v812, v8114, v821] }

example : bestVersionWithFlavor testStoreFpm (str "8.0-fpm") (str "testing") =
    ⟨some v8026, str "testing", [], none⟩ := by decide

example : validateVersion (str "80107") = some [8, 1, 7] := by decide

example : goVersionString [8, 1, 7] = str "8.1.7" := by decide

example : validateVersion (str "8010") = none := by decide

example : normalizeVersion (str "8.1.7") = some (str "80107") := by decide

example :
    (bestVersionForDir testStore { forced := str "8" }) = none := by decide

example :
    (bestVersionForDir testStore { forced := str "8.1" }) =
      some (bestVersion testStore (str "8.1") (str "internal forced version")) := by
  decide

example : goNewVersion (str "v8.1") = some [8, 1, 0] := by decide

example : goNewVersion (str "8.1-rc1") = some [8, 1, 0] := by decide

example : goNewVersion (str "8.1+build.7") = some [8, 1, 0] := by decide

example : goNewVersion (str "8.1.") = none := by decide

example : goNewVersion (str "9223372036854775808") = none := by decide

example :
    (bestVersionForDir testStore
        { forced := str "v8.1",
          phpVersionPin := some (str "7.4", str "/proj") }) =
      some (bestVersion testStore (str "v8.1")
        (str "internal forced version")) := by
  decide

example :
    (bestVersionForDir testStore
        { forced := str "8.1-rc1",
          phpVersionPin := some (str "7.4", str "/proj") }) =
      some (bestVersion testStore (str "8.1-rc1")
        (str "internal forced version")) := by
  decide

example :
    ((addVersion (fun _ => []) (addVersion (fun _ => []) emptyStore
        (mkRecord [8, 0, 26] "8.0.26")).1 v8026).1).versions = [v8026] := by
  decide

example :
    ((addVersion (fun _ => []) (addVersion (fun _ => []) emptyStore
        v8026).1 (mkRecord [8, 0, 26] "8.0.26")).1).versions = [v8026] := by
  decide

example :
    flaggedCount (loadVersions
      [{ v8027 with isSystem := true }, { v821 with isSystem := true }]) = 2 := by
  decide

example :
    flaggedCount (discover (fun _ => []) [v8027] [v821, v812]) = 1 := by
  decide

/-! ## Lemmas on the string primitives -/

theorem goIndexByte_of_not_mem {xs : List Char} {c : Char} (h : c ∉ xs) :
    goIndexByte xs c = -1 := by
  induction xs with
  | nil => rfl
  | cons x xs ih =>
    have hx : x ≠ c := fun he => h (he ▸ List.mem_cons_self x xs)
    have hxs : c ∉ xs := fun hm => h (List.mem_cons_of_mem x hm)
    simp [goIndexByte, hx, ih hxs]

theorem goLastIndexByte_of_not_mem {xs : List Char} {c : Char} (h : c ∉ xs) :
    goLastIndexByte xs c = -1 := by
  induction xs with
  | nil => rfl
  | cons x xs ih =>
    have hx : x ≠ c := fun he => h (he ▸ List.mem_cons_self x xs)
    have hxs : c ∉ xs := fun hm => h (List.mem_cons_of_mem x hm)
    simp [goLastIndexByte, hx, ih hxs]

theorem goLastIndexByte_eq_goIndexByte {xs : List Char} {c : Char}
    (h : xs.count c ≤ 1) :
    goLastIndexByte xs c = goIndexByte xs c := by
  induction xs with
  | nil => rfl
  | cons x xs ih =>
    by_cases hx : x = c
    · have hc0 : xs.count c = 0 := by
        have h2 := h
        rw [List.count_cons] at h2
        simp [hx] at h2
        omega
      have hnm : c ∉ xs := List.count_eq_zero.mp hc0
      simp [goIndexByte, goLastIndexByte, hx,
        goIndexByte_of_not_mem hnm, goLastIndexByte_of_not_mem hnm]
    · have hle : xs.count c ≤ 1 := by
        have h2 := h
        rw [List.count_cons] at h2
        simp [hx] at h2
        omega
      simp only [goIndexByte, goLastIndexByte, ih hle]
      by_cases hr : goIndexByte xs c = -1 <;> simp [hr, hx]

theorem goIndexByte_append {a rest : List Char} {c : Char} (ha : c ∉ a) :
    goIndexByte (a ++ c :: rest) c = (a.length : Int) := by
  induction a with
  | nil => simp [goIndexByte]
  | cons x xs ih =>
    have hx : x ≠ c := fun he => ha (he ▸ List.mem_cons_self x xs)
    have hxs : c ∉ xs := fun hm => ha (List.mem_cons_of_mem x hm)
    rw [List.cons_append, goIndexByte]
    simp only [hx, if_false, ih hxs]
    have hne : ((xs.length : Int)) ≠ -1 := by omega
    simp [hne]

theorem goLastIndexByte_append {xs cs : List Char} {c : Char} (hc : c ∉ cs) :
    goLastIndexByte (xs ++ c :: cs) c = (xs.length : Int) := by
  induction xs with
  | nil => simp [goLastIndexByte, goLastIndexByte_of_not_mem hc]
  | cons x ys ih =>
    rw [List.cons_append, goLastIndexByte]
    simp only [ih]
    have hne : ((ys.length : Int)) ≠ -1 := by omega
    simp [hne]

theorem drop_length_succ_append {α : Type} (l₁ : List α) (x : α) (l₂ : List α) :
    (l₁ ++ x :: l₂).drop (l₁.length + 1) = l₂ := by
  induction l₁ with
  | nil => simp
  | cons y ys ih => simp [ih]

/-! ## Lemmas on the reverse scan -/

theorem findFromEnd_mem {α : Type} {p : α → Bool} {l : List α} {v : α}
    (h : findFromEnd p l = some v) : v ∈ l ∧ p v = true := by
  induction l with
  | nil => simp [findFromEnd] at h
  | cons x xs ih =>
    rw [findFromEnd] at h
    cases hr : findFromEnd p xs with
    | some r =>
      rw [hr] at h
      injection h with h
      subst h
      exact ⟨List.mem_cons_of_mem x (ih hr).1, (ih hr).2⟩
    | none =>
      rw [hr] at h
      by_cases hp : p x
      · simp [hp] at h
        exact ⟨h ▸ List.mem_cons_self x xs, h ▸ hp⟩
      · simp [hp] at h

theorem findFromEnd_none {α : Type} {p : α → Bool} {l : List α}
    (h : findFromEnd p l = none) : ∀ w ∈ l, p w = false := by
  induction l with
  | nil => intro w hw; simp at hw
  | cons x xs ih =>
    rw [findFromEnd] at h
    cases hr : findFromEnd p xs with
    | some r => rw [hr] at h; cases h
    | none =>
      rw [hr] at h
      intro w hw
      rcases List.mem_cons.mp hw with he | hm
      · subst he
        by_cases hp : p w
        · simp [hp] at h
        · simpa using hp
      · exact ih hr w hm

theorem findFromEnd_is_last {α : Type} {R : α → α → Prop} {p : α → Bool}
    {l : List α} {v : α} (hsort : List.Pairwise R l)
    (h : findFromEnd p l = some v) :
    ∀ w ∈ l, p w = true → w = v ∨ R w v := by
  induction l with
  | nil => simp [findFromEnd] at h
  | cons x xs ih =>
    rw [findFromEnd] at h
    rcases List.pairwise_cons.mp hsort with ⟨hx, hxs⟩
    cases hr : findFromEnd p xs with
    | some r =>
      rw [hr] at h
      cases h
      intro w hw hp
      rcases List.mem_cons.mp hw with he | hm
      · subst he
        exact Or.inr (hx _ (findFromEnd_mem hr).1)
      · exact ih hxs hr w hm hp
    | none =>
      rw [hr] at h
      by_cases hp : p x
      · simp [hp] at h
        intro w hw hpw
        rcases List.mem_cons.mp hw with he | hm
        · exact Or.inl (he.trans h)
        · exact absurd hpw (by simp [findFromEnd_none hr w hm])
      · simp [hp] at h

theorem segLE_refl (a : List Nat) : segLE a a = true := by
  induction a with
  | nil => rfl
  | cons x xs ih => simp [segLE, ih]

/-! ## Shape lemmas for bestVersion -/

/-- A prefix with at most one dot (one or two components) goes straight to
the prefix scan with no warning. -/
theorem bestVersion_le_one_dot {s : Store} {vp src : List Char}
    (h : vp.count dotChar ≤ 1) :
    bestVersion s vp src = bestVersionScan s vp src [] := by
  rw [bestVersion]
  simp [goLastIndexByte_eq_goIndexByte h]

/-- A three-component prefix whose last component is `"99"` is truncated to
its first two components and scanned with no warning. -/
theorem bestVersion_wildcard_shape {s : Store} {a b : List Char}
    {src : List Char} (ha : dotChar ∉ a) :
    bestVersion s ((a ++ dotChar :: b) ++ dotChar :: str "99") src =
      bestVersionScan s (a ++ dotChar :: b) src [] := by
  have h99 : dotChar ∉ str "99" := by decide
  have hlast : goLastIndexByte ((a ++ dotChar :: b) ++ dotChar :: str "99")
      dotChar = (((a ++ dotChar :: b).length : Nat) : Int) :=
    goLastIndexByte_append h99
  have hshape : (a ++ dotChar :: b) ++ dotChar :: str "99" =
      a ++ dotChar :: (b ++ dotChar :: str "99") := by simp
  have hidx : goIndexByte ((a ++ dotChar :: b) ++ dotChar :: str "99")
      dotChar = ((a.length : Nat) : Int) := by
    rw [hshape]; exact goIndexByte_append ha
  rw [bestVersion]
  simp only [hlast, hidx]
  have hlen : (a ++ dotChar :: b).length = a.length + b.length + 1 := by
    simp [List.length_append]; omega
  have hne : (((a ++ dotChar :: b).length : Nat) : Int) ≠ (a.length : Int) := by
    rw [hlen]; omega
  rw [if_pos hne]
  have htn : ((((a ++ dotChar :: b).length : Nat) : Int) + 1).toNat =
      (a ++ dotChar :: b).length + 1 := by omega
  rw [htn, drop_length_succ_append]
  rw [if_pos rfl]
  have htn2 : ((((a ++ dotChar :: b).length : Nat) : Int)).toNat =
      (a ++ dotChar :: b).length := by omega
  rw [htn2, List.take_left]

/-- A three-component prefix whose last component is not `"99"` takes the
exact-match path and, on a miss, falls back to the two-component scan with
the truncation warning. -/
theorem bestVersion_patch_shape {s : Store} {a b c : List Char}
    {src : List Char} (ha : dotChar ∉ a) (hc : dotChar ∉ c)
    (hne99 : c ≠ str "99") :
    bestVersion s ((a ++ dotChar :: b) ++ dotChar :: c) src =
      match s.versions.find?
          (fun v => v.version = (a ++ dotChar :: b) ++ dotChar :: c) with
      | some v => ⟨some v, src, [], none⟩
      | none =>
        bestVersionScan s (a ++ dotChar :: b) src
          (patchWarning ((a ++ dotChar :: b) ++ dotChar :: c) src
            (a ++ dotChar :: b)) := by
  have hlast : goLastIndexByte ((a ++ dotChar :: b) ++ dotChar :: c)
      dotChar = (((a ++ dotChar :: b).length : Nat) : Int) :=
    goLastIndexByte_append hc
  have hshape : (a ++ dotChar :: b) ++ dotChar :: c =
      a ++ dotChar :: (b ++ dotChar :: c) := by simp
  have hidx : goIndexByte ((a ++ dotChar :: b) ++ dotChar :: c)
      dotChar = ((a.length : Nat) : Int) := by
    rw [hshape]; exact goIndexByte_append ha
  rw [bestVersion]
  simp only [hlast, hidx]
  have hlen : (a ++ dotChar :: b).length = a.length + b.length + 1 := by
    simp [List.length_append]; omega
  have hne : (((a ++ dotChar :: b).length : Nat) : Int) ≠ (a.length : Int) := by
    rw [hlen]; omega
  rw [if_pos hne]
  have htn : ((((a ++ dotChar :: b).length : Nat) : Int) + 1).toNat =
      (a ++ dotChar :: b).length + 1 := by omega
  rw [htn, drop_length_succ_append]
  rw [if_neg hne99]
  have htn2 : ((((a ++ dotChar :: b).length : Nat) : Int)).toNat =
      (a ++ dotChar :: b).length := by omega
  rw [htn2, List.take_left]

theorem patchWarning_ne_nil (vp src newVP : List Char) :
    patchWarning vp src newVP ≠ [] := by
  simp [patchWarning, str]

theorem noMatchWarning_ne_nil (vp src : List Char) :
    noMatchWarning vp src ≠ [] := by
  simp [noMatchWarning, str]

theorem not_dot_mem_of_digits {l : List Char} (h : l.all Char.isDigit = true) :
    dotChar ∉ l := by
  intro hm
  exact absurd (List.all_eq_true.mp h _ hm) (by decide)

/-! ## Claim theorems -/

/-- C1: for a requested prefix of one or two components, `bestVersion` scans
the version-sorted record list from the highest version downward and returns
the first (hence highest, when the list is sorted ascending) record whose
version string starts with the prefix, with no warning; in particular, on the
test store `bestVersion "8"` is the 8.2.1 record and `bestVersion "8.1"` the
8.1.14 record. -/
theorem bestVersion_scans_sorted_from_end :
    (∀ (s : Store) (vp src : List Char) (v : Version),
        vp.count dotChar ≤ 1 →
        List.Pairwise (fun x y => segLE x.fullVersion y.fullVersion = true)
          s.versions →
        findFromEnd (fun w => vp.isPrefixOf w.version) s.versions = some v →
        bestVersion s vp src = ⟨some v, src, [], none⟩ ∧
        vp.isPrefixOf v.version = true ∧
        ∀ w ∈ s.versions, vp.isPrefixOf w.version = true →
          segLE w.fullVersion v.fullVersion = true) ∧
    bestVersion testStore (str "8") (str "testing") =
      ⟨some v821, str "testing", [], none⟩ ∧
    bestVersion testStore (str "8.1") (str "testing") =
      ⟨some v8114, str "testing", [], none⟩ := by
  refine ⟨?_, by decide, by decide⟩
  intro s vp src v hdots hsort hfind
  have h1 : bestVersion s vp src = bestVersionScan s vp src [] :=
    bestVersion_le_one_dot hdots
  have h2 : bestVersionScan s vp src [] = ⟨some v, src, [], none⟩ := by
    rw [bestVersionScan, hfind]
  refine ⟨h1.trans h2, (findFromEnd_mem hfind).2, ?_⟩
  intro w hw hp
  rcases findFromEnd_is_last hsort hfind w hw hp with he | hrel
  · rw [he]; exact segLE_refl _
  · exact hrel

/-- Witness for C1: the general conjunct applied to the test store and the
prefix `"8"`. -/
theorem bestVersion_scans_sorted_from_end_witness :
    bestVersion testStore (str "8") (str "testing") =
      ⟨some v821, str "testing", [], none⟩ ∧
    ∀ w ∈ testStore.versions, (str "8").isPrefixOf w.version = true →
      segLE w.fullVersion v821.fullVersion = true := by
  have h := bestVersion_scans_sorted_from_end.1 testStore (str "8")
    (str "testing") v821 (by decide) (by decide) (by decide)
  exact ⟨h.1, h.2.2⟩

/-- C2: a three-component request whose patch is not `"99"` first looks for a
record whose version equals the full request, returning it with no warning;
on a miss it truncates to two components and pairs any record found by the
prefix scan with the non-empty truncation warning naming the original request
and the source; in particular `bestVersion "8.0.10"` on the test store is the
8.0.27 record with a non-empty warning. -/
theorem bestVersion_patch_exact_then_fallback :
    (∀ (s : Store) (a b c src : List Char),
        a.all Char.isDigit = true → c.all Char.isDigit = true →
        c ≠ str "99" →
        (∀ v, s.versions.find?
            (fun w => w.version = (a ++ dotChar :: b) ++ dotChar :: c) =
              some v →
          bestVersion s ((a ++ dotChar :: b) ++ dotChar :: c) src =
            ⟨some v, src, [], none⟩) ∧
        (s.versions.find?
            (fun w => w.version = (a ++ dotChar :: b) ++ dotChar :: c) =
              none →
          ∀ v, findFromEnd (fun w => (a ++ dotChar :: b).isPrefixOf w.version)
              s.versions = some v →
            bestVersion s ((a ++ dotChar :: b) ++ dotChar :: c) src =
              ⟨some v, src,
                patchWarning ((a ++ dotChar :: b) ++ dotChar :: c) src
                  (a ++ dotChar :: b), none⟩ ∧
            patchWarning ((a ++ dotChar :: b) ++ dotChar :: c) src
              (a ++ dotChar :: b) ≠ [])) ∧
    bestVersion testStore (str "8.0.10") (str "testing") =
      ⟨some v8027, str "testing",
        patchWarning (str "8.0.10") (str "testing") (str "8.0"), none⟩ ∧
    patchWarning (str "8.0.10") (str "testing") (str "8.0") ≠ [] := by
  refine ⟨?_, by decide, by decide⟩
  intro s a b c src ha hc h99
  have ha' := not_dot_mem_of_digits ha
  have hc' := not_dot_mem_of_digits hc
  constructor
  · intro v hv
    rw [bestVersion_patch_shape ha' hc' h99, hv]
  · intro hnone v hfind
    rw [bestVersion_patch_shape ha' hc' h99, hnone]
    exact ⟨by rw [bestVersionScan, hfind], patchWarning_ne_nil _ _ _⟩

/-- Witness for C2: the general conjunct applied to the test store and the
request `"8.0.10"`, exercising both the missing-exact-match branch and the
prefix scan. -/
theorem bestVersion_patch_exact_then_fallback_witness :
    bestVersion testStore (str "8.0.10") (str "testing") =
      ⟨some v8027, str "testing",
        patchWarning (str "8.0.10") (str "testing") (str "8.0"), none⟩ ∧
    patchWarning (str "8.0.10") (str "testing") (str "8.0") ≠ [] := by
  have h := ((bestVersion_patch_exact_then_fallback.1 testStore (str "8")
      (str "0") (str "10") (str "testing") (by decide) (by decide)
      (by decide)).2 (by decide) v8027 (by decide))
  exact h

/-- C3: a three-component request whose patch is literally `"99"` behaves
exactly as the request truncated to two components — the exact-match step is
skipped and a prefix-scan hit comes with an empty warning; in particular
`bestVersion "8.0.99"` on the test store is the 8.0.27 record with an empty
warning. -/
theorem bestVersion_wildcard99 :
    (∀ (s : Store) (a b src : List Char),
        a.all Char.isDigit = true → b.all Char.isDigit = true →
        bestVersion s ((a ++ dotChar :: b) ++ dotChar :: str "99") src =
          bestVersion s (a ++ dotChar :: b) src ∧
        (∀ v, findFromEnd (fun w => (a ++ dotChar :: b).isPrefixOf w.version)
            s.versions = some v →
          bestVersion s ((a ++ dotChar :: b) ++ dotChar :: str "99") src =
            ⟨some v, src, [], none⟩)) ∧
    bestVersion testStore (str "8.0.99") (str "testing") =
      ⟨some v8027, str "testing", [], none⟩ := by
  refine ⟨?_, by decide⟩
  intro s a b src ha hb
  have ha' := not_dot_mem_of_digits ha
  have hb' := not_dot_mem_of_digits hb
  have hcnt : (a ++ dotChar :: b).count dotChar ≤ 1 := by
    rw [List.count_append, List.count_cons]
    simp [List.count_eq_zero.mpr ha', List.count_eq_zero.mpr hb']
  constructor
  · rw [bestVersion_wildcard_shape ha', bestVersion_le_one_dot hcnt]
  · intro v hfind
    rw [bestVersion_wildcard_shape ha', bestVersionScan, hfind]

/-- Witness for C3: the general conjunct applied to the test store and the
request `"8.0.99"`. -/
theorem bestVersion_wildcard99_witness :
    bestVersion testStore (str "8.0.99") (str "testing") =
      bestVersion testStore (str "8.0") (str "testing") ∧
    bestVersion testStore (str "8.0.99") (str "testing") =
      ⟨some v8027, str "testing", [], none⟩ := by
  have h := bestVersion_wildcard99.1 testStore (str "8") (str "0")
    (str "testing") (by decide) (by decide)
  exact ⟨h.1, h.2 v8027 (by decide)⟩

/-- A store holding only the 8.2.1 record, which is also the recorded PATH
default. -/
def v821System : Version := { v821 with isSystem := true }

def pathOnlyStore : Store :=
  { versions := [v821System], pathVersion := some v821System }

/-- C4 counterexample: requesting `"7"` (one component, so no truncation
warning was computed upstream) against a store whose PATH default exists but
matches nothing hits the fallback, and the returned warning is NOT the empty
upstream warning — line 184 of store.go builds a fresh non-empty message. -/
theorem bestVersion_fallback_warning_cex :
    (bestVersion pathOnlyStore (str "7") (str "src")).warning ≠ [] ∧
    bestVersion pathOnlyStore (str "7") (str "src") =
      ⟨some v821System, str "default version in $PATH",
        noMatchWarning (str "7") (str "src"), none⟩ := by
  exact ⟨by decide, by decide⟩

/-- C4 amended: when the prefix scan finds nothing, `bestVersion` calls the
fallback with a freshly built non-empty warning naming the (possibly
truncated) prefix and the source — replacing any truncation warning computed
upstream — and `fallbackVersion` itself selects the PATH-default record, else
the highest record, else the "no PHP binaries detected" error, passing its
warning argument through unchanged. -/
theorem bestVersion_fallback_behaviour :
    (∀ (s : Store) (vp src : List Char),
        vp.count dotChar ≤ 1 →
        findFromEnd (fun w => vp.isPrefixOf w.version) s.versions = none →
        bestVersion s vp src = fallbackVersion s (noMatchWarning vp src) ∧
        noMatchWarning vp src ≠ []) ∧
    (∀ (s : Store) (a b c src : List Char),
        a.all Char.isDigit = true → c.all Char.isDigit = true →
        c ≠ str "99" →
        s.versions.find?
          (fun w => w.version = (a ++ dotChar :: b) ++ dotChar :: c) = none →
        findFromEnd (fun w => (a ++ dotChar :: b).isPrefixOf w.version)
          s.versions = none →
        bestVersion s ((a ++ dotChar :: b) ++ dotChar :: c) src =
          fallbackVersion s (noMatchWarning (a ++ dotChar :: b) src)) ∧
    (∀ (s : Store) (w : List Char) (pv : Version),
        s.pathVersion = some pv →
        fallbackVersion s w =
          ⟨some pv, str "default version in $PATH", w, none⟩) ∧
    (∀ (s : Store) (w : List Char),
        s.pathVersion = none → s.versions = [] →
        fallbackVersion s w =
          ⟨none, [], w, some (str "no PHP binaries detected")⟩) ∧
    (∀ (s : Store) (w : List Char) (v : Version),
        s.pathVersion = none → s.versions.getLast? = some v →
        fallbackVersion s w =
          ⟨some v, str "most recent PHP version", w, none⟩) := by
  refine ⟨?_, ?_, ?_, ?_, ?_⟩
  · intro s vp src hdots hnone
    rw [bestVersion_le_one_dot hdots, bestVersionScan, hnone]
    exact ⟨rfl, noMatchWarning_ne_nil _ _⟩
  · intro s a b c src ha hc h99 hexact hscan
    rw [bestVersion_patch_shape (not_dot_mem_of_digits ha)
      (not_dot_mem_of_digits hc) h99, hexact]
    rw [bestVersionScan, hscan]
  · intro s w pv hpv
    rw [fallbackVersion, hpv]
  · intro s w hnone hvers
    rw [fallbackVersion, hnone, hvers]
    rfl
  · intro s w v hnone hlast
    rw [fallbackVersion, hnone, hlast]

/-- Witness for C4 amended: the scan-miss conjunct and the PATH-default
conjunct applied to concrete stores. -/
theorem bestVersion_fallback_behaviour_witness :
    bestVersion pathOnlyStore (str "9") (str "src") =
      fallbackVersion pathOnlyStore (noMatchWarning (str "9") (str "src")) ∧
    fallbackVersion pathOnlyStore (str "w") =
      ⟨some v821System, str "default version in $PATH", str "w", none⟩ := by
  exact ⟨(bestVersion_fallback_behaviour.1 pathOnlyStore (str "9") (str "src")
      (by decide) (by decide)).1,
    bestVersion_fallback_behaviour.2.2.1 pathOnlyStore (str "w") v821System
      rfl⟩

theorem digit_ne_dot {c : Char} (h : c.isDigit = true) : c ≠ dotChar := by
  intro he
  exact absurd (he ▸ h) (by decide)

/-- C5 counterexample: the 5-digit vernum `"80107"` (PHP 8.1.7) parses, but
the version string it yields is the canonicalized `"8.1.7"`, not the
zero-padded `"8.01.07"` the claim requires — go-version's `String()` drops
prefixed zeroes. -/
theorem validateVersion_padding_cex :
    (validateVersion (str "80107")).map goVersionString =
      some (str "8.1.7") ∧
    some (str "8.1.7") ≠ some (str "8.01.07") := by
  exact ⟨by decide, by decide⟩

/-- C5 amended: every vernum string whose length is not 5 is rejected, and a
5-digit vernum `XYYZZ` yields the version with major `X`, minor the numeric
value of `YY` and patch the numeric value of `ZZ` — the zero-padding is
consumed by the parse (the version string is canonicalized, e.g. vernum
`80107` gives `8.1.7`, not `8.01.07`). -/
theorem validateVersion_behaviour :
    (∀ v : List Char, v.length ≠ 5 → validateVersion v = none) ∧
    (∀ c0 c1 c2 c3 c4 : Char,
        c0.isDigit = true → c1.isDigit = true → c2.isDigit = true →
        c3.isDigit = true → c4.isDigit = true →
        validateVersion [c0, c1, c2, c3, c4] =
          some [c0.toNat - 48,
                10 * (c1.toNat - 48) + (c2.toNat - 48),
                10 * (c3.toNat - 48) + (c4.toNat - 48)]) := by
  constructor
  · intro v h
    rw [validateVersion, if_pos h]
  · intro c0 c1 c2 c3 c4 h0 h1 h2 h3 h4
    have hv0 : c0 ≠ 'v' := fun he => absurd (he ▸ h0) (by decide)
    have hdd : dotChar.isDigit = false := by decide
    have hcore : numCore 7 [c0, dotChar, c1, c2, dotChar, c3, c4] =
        ([[c0], [c1, c2], [c3, c4]], []) := by
      simp [numCore, List.takeWhile_cons, List.dropWhile_cons, h0, h1, h2,
        h3, h4, hdd]
    have hbound : ∀ c : Char, c.toNat < 4294967296 := fun c => by
      have h := c.val.toNat_lt_size
      simpa [Char.toNat] using h
    have e1 : digitsToNat [c1, c2] =
        10 * (c1.toNat - 48) + (c2.toNat - 48) := by
      simp [digitsToNat, List.foldl]
    have e2 : digitsToNat [c3, c4] =
        10 * (c3.toNat - 48) + (c4.toNat - 48) := by
      simp [digitsToNat, List.foldl]
    have b0 : c0.toNat - 48 ≤ 9223372036854775807 := by
      have := hbound c0; omega
    have b1 : 10 * (c1.toNat - 48) + (c2.toNat - 48) ≤
        9223372036854775807 := by
      have := hbound c1; have := hbound c2; omega
    have b2 : 10 * (c3.toNat - 48) + (c4.toNat - 48) ≤
        9223372036854775807 := by
      have := hbound c3; have := hbound c4; omega
    have key : goNewVersion [c0, dotChar, c1, c2, dotChar, c3, c4] =
        some [c0.toNat - 48,
              10 * (c1.toNat - 48) + (c2.toNat - 48),
              10 * (c3.toNat - 48) + (c4.toNat - 48)] := by
      simp [goNewVersion, hv0, h0, hcore, goVersionTail, goIndexByte, preOk,
        digitsToNat, e1, e2, b0, b1, b2]
    have harg : ([c0, c1, c2, c3, c4].take 1 ++ dotChar ::
        (([c0, c1, c2, c3, c4].drop 1).take 2 ++ dotChar ::
          ([c0, c1, c2, c3, c4].drop 3).take 2)) =
        [c0, dotChar, c1, c2, dotChar, c3, c4] := rfl
    rw [validateVersion, if_neg (by simp), harg, key]

/-- Witness for C5 amended: both conjuncts applied to concrete vernums —
the 4-character `"8010"` is rejected and `"80107"` parses to segments
`[8, 1, 7]`. -/
theorem validateVersion_behaviour_witness :
    validateVersion (str "8010") = none ∧
    validateVersion (str "80107") = some [8, 1, 7] := by
  refine ⟨validateVersion_behaviour.1 (str "8010") (by decide), ?_⟩
  have h := validateVersion_behaviour.2 '8' '0' '1' '0' '7'
    (by decide) (by decide) (by decide) (by decide) (by decide)
  exact h

/-! ## Lemmas for the system-default flag invariant -/

theorem countP_set_le {α : Type} (l : List α) (p : α → Bool) (i : Nat)
    (v : α) (hv : p v = false) : (l.set i v).countP p ≤ l.countP p := by
  induction l generalizing i with
  | nil => simp
  | cons x xs ih =>
    cases i with
    | zero =>
      simp only [List.set, List.countP_cons, hv]
      by_cases hx : p x <;> simp [hx]
    | succ j =>
      simp only [List.set, List.countP_cons]
      have := ih j
      omega

theorem countP_set_le_succ {α : Type} (l : List α) (p : α → Bool) (i : Nat)
    (v : α) : (l.set i v).countP p ≤ l.countP p + 1 := by
  induction l generalizing i with
  | nil => simp
  | cons x xs ih =>
    cases i with
    | zero =>
      simp only [List.set, List.countP_cons]
      by_cases hv : p v <;> by_cases hx : p x
      all_goals simp [hv, hx]
      all_goals omega
    | succ j =>
      simp only [List.set, List.countP_cons]
      have := ih j
      omega

/-- `addVersion` never touches the PATH-default pointer. -/
theorem addVersion_pathVersion (sl : List Char → List Char) (s : Store)
    (v : Version) : ((addVersion sl s v).1).pathVersion = s.pathVersion := by
  simp only [addVersion]
  split
  · rfl
  · split <;> rfl

/-- `addVersion` with an unflagged record never increases the number of
flagged records. -/
theorem flaggedCount_addVersion_le (sl : List Char → List Char) (s : Store)
    (v : Version) (hv : v.isSystem = false) :
    flaggedCount (addVersion sl s v).1 ≤ flaggedCount s := by
  simp only [addVersion, flaggedCount]
  split
  · simp [List.countP_append, hv]
  · split
    · exact countP_set_le _ _ _ _ hv
    · exact le_refl _

/-- The invariant maintained during discovery: no flagged record before the
PATH default is designated, and at most one ever. -/
def storeInv (st : Store) : Prop :=
  (st.pathVersion = none → flaggedCount st = 0) ∧ flaggedCount st ≤ 1

theorem storeInv_emptyStore : storeInv emptyStore :=
  ⟨fun _ => rfl, by decide⟩

theorem storeInv_addVersion {sl : List Char → List Char} {st : Store}
    {v : Version} (hv : v.isSystem = false) (h : storeInv st) :
    storeInv (addVersion sl st v).1 := by
  have hle := flaggedCount_addVersion_le sl st v hv
  have hpp := addVersion_pathVersion sl st v
  exact ⟨fun hn => by have := h.1 (hpp ▸ hn); omega, le_trans hle h.2⟩

theorem storeInv_addPathRecord {sl : List Char → List Char} {st : Store}
    {v : Version} (hv : v.isSystem = false) (h : storeInv st) :
    storeInv (addPathRecord sl st v) := by
  have h1 := @storeInv_addVersion sl st v hv h
  simp only [addPathRecord]
  rcases haa : addVersion sl st v with ⟨s1, idx⟩
  rw [haa] at h1
  cases hpv : s1.pathVersion with
  | some pv => exact h1
  | none =>
    have hzero : flaggedCount s1 = 0 := h1.1 hpv
    cases hg : s1.versions.get? idx with
    | none => exact h1
    | some w =>
      constructor
      · intro hcontra
        simp at hcontra
      · show (s1.versions.set idx _).countP (fun v => v.isSystem) ≤ 1
        have := countP_set_le_succ s1.versions (fun v => v.isSystem) idx
          { w with isSystem := true }
        have hz : s1.versions.countP (fun v => v.isSystem) = 0 := hzero
        omega

theorem storeInv_addAll {sl : List Char → List Char} {vs : List Version}
    {st : Store} (hall : ∀ v ∈ vs, v.isSystem = false) (h : storeInv st) :
    storeInv (addAll sl st vs) := by
  induction vs generalizing st with
  | nil => exact h
  | cons v vs ih =>
    exact ih (fun w hw => hall w (List.mem_cons_of_mem v hw))
      (storeInv_addVersion (hall v (List.mem_cons_self v vs)) h)

theorem storeInv_foldPath {sl : List Char → List Char} {vs : List Version}
    {st : Store} (hall : ∀ v ∈ vs, v.isSystem = false) (h : storeInv st) :
    storeInv (vs.foldl (addPathRecord sl) st) := by
  induction vs generalizing st with
  | nil => exact h
  | cons v vs ih =>
    exact ih (fun w hw => hall w (List.mem_cons_of_mem v hw))
      (storeInv_addPathRecord (hall v (List.mem_cons_self v vs)) h)

theorem mem_of_mem_set {α : Type} {l : List α} {i : Nat} {v w : α}
    (h : w ∈ l.set i v) : w ∈ l ∨ w = v := by
  induction l generalizing i with
  | nil => simp at h
  | cons x xs ih =>
    cases i with
    | zero =>
      rcases List.mem_cons.mp h with he | hm
      · exact Or.inr he
      · exact Or.inl (List.mem_cons_of_mem x hm)
    | succ j =>
      rcases List.mem_cons.mp h with he | hm
      · exact Or.inl (he ▸ List.mem_cons_self x xs)
      · rcases ih hm with h1 | h2
        · exact Or.inl (List.mem_cons_of_mem x h1)
        · exact Or.inr h2

/-- Every record `addVersion` stores is either an already stored one or the
record being added. -/
theorem addVersion_mem {sl : List Char → List Char} {st : Store}
    {v w : Version} (h : w ∈ ((addVersion sl st v).1).versions) :
    w ∈ st.versions ∨ w = v := by
  simp only [addVersion] at h
  split at h
  · simp only at h
    rcases List.mem_append.mp h with h1 | h2
    · exact Or.inl h1
    · exact Or.inr (by simpa using h2)
  · split at h
    · exact mem_of_mem_set h
    · exact Or.inl h

theorem unflagged_addAll {sl : List Char → List Char} {vs : List Version}
    {st : Store} (hst : ∀ w ∈ st.versions, w.isSystem = false)
    (hall : ∀ v ∈ vs, v.isSystem = false) :
    ∀ w ∈ (addAll sl st vs).versions, w.isSystem = false := by
  induction vs generalizing st with
  | nil => exact hst
  | cons v vs ih =>
    refine ih (fun w hw => ?_) (fun u hu => hall u (List.mem_cons_of_mem v hu))
    rcases addVersion_mem hw with h1 | h2
    · exact hst w h1
    · exact h2 ▸ hall v (List.mem_cons_self v vs)

theorem addAll_pathVersion (sl : List Char → List Char) (vs : List Version)
    (st : Store) : (addAll sl st vs).pathVersion = st.pathVersion := by
  induction vs generalizing st with
  | nil => rfl
  | cons v vs ih =>
    show (addAll sl ((addVersion sl st v).1) vs).pathVersion = st.pathVersion
    rw [ih, addVersion_pathVersion]

/-- Invariant of the `seen` map: every recorded index is in range. -/
def seenBound (st : Store) : Prop :=
  ∀ e ∈ st.seen, e.2 < st.versions.length

theorem seenBound_emptyStore : seenBound emptyStore := by
  intro e he
  simp [emptyStore] at he

theorem seenLookup_lt {st : Store} {k : List Char} {i : Nat}
    (hb : seenBound st) (h : seenLookup st.seen k = some i) :
    i < st.versions.length := by
  simp only [seenLookup, Option.map_eq_some'] at h
  obtain ⟨e, he, hi⟩ := h
  exact hi ▸ hb e (List.mem_of_find?_eq_some he)

/-- `addVersion` keeps the `seen` indices in range and returns an
in-range index. -/
theorem addVersion_bound {sl : List Char → List Char} {st : Store}
    (v : Version) (hb : seenBound st) :
    seenBound (addVersion sl st v).1 ∧
    (addVersion sl st v).2 < ((addVersion sl st v).1).versions.length := by
  simp only [addVersion]
  cases hl : seenLookup st.seen v.phpPath with
  | some j =>
    have hj : j < st.versions.length := seenLookup_lt hb hl
    simp only [hl]
    constructor
    · split
      · intro e he
        simpa [List.length_set] using hb e he
      · exact hb
    · split
      · simpa [List.length_set] using hj
      · exact hj
  | none =>
    simp only [hl]
    by_cases hsl : sl v.phpPath = []
    · simp only [hsl, ne_eq, not_true_eq_false, if_false]
      constructor
      · intro e he
        simp only [List.length_append, List.length_cons, List.length_nil]
        rcases List.mem_cons.mp he with he1 | he2
        · simp [he1, List.length_append]
        · have := hb e he2
          omega
      · simp [List.length_append]
    · cases hl2 : seenLookup st.seen (sl v.phpPath) with
      | some j =>
        have hj : j < st.versions.length := seenLookup_lt hb hl2
        simp only [hsl, ne_eq, not_false_eq_true, if_true, hl2]
        constructor
        · split
          · intro e he
            simpa [List.length_set] using hb e he
          · exact hb
        · split
          · simpa [List.length_set] using hj
          · exact hj
      | none =>
        simp only [hsl, ne_eq, not_false_eq_true, if_true, hl2]
        constructor
        · intro e he
          simp only [List.length_append, List.length_cons, List.length_nil]
          simp only [hsl, ne_eq, not_false_eq_true, if_true] at he
          rcases List.mem_cons.mp he with he1 | he2
          · simp [he1, List.length_append]
          · rcases List.mem_cons.mp he2 with he3 | he4
            · simp [he3, List.length_append]
            · have := hb e he4
              omega
        · simp [List.length_append]

theorem seenBound_addAll {sl : List Char → List Char} (vs : List Version)
    (st : Store) (hb : seenBound st) : seenBound (addAll sl st vs) := by
  induction vs generalizing st with
  | nil => exact hb
  | cons v vs ih =>
    exact ih _ (addVersion_bound v hb).1

/-- The record the discovery loop flags at the first PATH-scan yield: the
record stored at the index `addVersion` returns for it, with the
system-default flag set (part_000 lines 47-51). -/
def firstPathMark (sl : List Char → List Char) (defaults : List Version)
    (v : Version) : Option Version :=
  let s0 := addAll sl emptyStore defaults
  let p := addVersion sl s0 v
  (p.1.versions.get? p.2).map (fun w => { w with isSystem := true })

/-- Once the PATH default is designated, the remaining PATH iterations only
run `addVersion`, so any flagged stored record stays the designated one. -/
theorem fold_flag_invariant {sl : List Char → List Char} {marked : Version} :
    ∀ (rest : List Version) (st : Store),
      (∀ v ∈ rest, v.isSystem = false) →
      st.pathVersion.isSome →
      (∀ w ∈ st.versions, w.isSystem = true → w = marked) →
      ∀ w ∈ (rest.foldl (addPathRecord sl) st).versions,
        w.isSystem = true → w = marked := by
  intro rest
  induction rest with
  | nil =>
    intro st _ _ hflag
    exact hflag
  | cons u us ih =>
    intro st hall hsome hflag
    rw [List.foldl_cons]
    have hu : u.isSystem = false := hall u (List.mem_cons_self u us)
    rcases haa : addVersion sl st u with ⟨s1, idx⟩
    have hs1pv : s1.pathVersion = st.pathVersion := by
      have h := addVersion_pathVersion sl st u
      rw [haa] at h
      exact h
    have hsome1 : s1.pathVersion.isSome := by rw [hs1pv]; exact hsome
    have hstep : addPathRecord sl st u = s1 := by
      obtain ⟨pv, hpv⟩ := Option.isSome_iff_exists.mp hsome1
      simp only [addPathRecord]
      rw [haa, hpv]
    rw [hstep]
    refine ih s1 (fun x hx => hall x (List.mem_cons_of_mem u hx)) hsome1 ?_
    intro x hx hxf
    have hmem : x ∈ st.versions ∨ x = u :=
      addVersion_mem (show x ∈ ((addVersion sl st u).1).versions by
        rw [haa]; exact hx)
    rcases hmem with h1 | h2
    · exact hflag x h1 hxf
    · exact absurd (h2 ▸ hxf) (by simp [hu])

/-- C9 counterexample: a cache file whose records both carry `is_system`
loads into a store with TWO flagged records — `loadVersions` takes the
cached flags as they are and enforces no uniqueness. -/
theorem loadVersions_two_system_flags_cex :
    flaggedCount (loadVersions
      [{ v8027 with isSystem := true }, { v821 with isSystem := true }]) =
      2 := by decide

/-- C9 amended: when the store is built by running discovery (whose probes
construct records with the flag unset), at most one stored record carries
the system-default flag — namely the record stored at the index returned
for the first PATH-scan yield, flag set (no PATH yield, no flag); a store
built by loading a cache file instead preserves whatever flags the cache
holds, so uniqueness there requires the cache itself to contain at most one
flagged record. -/
theorem discover_at_most_one_system_flag :
    ∀ (sl : List Char → List Char) (defaults pathRecs : List Version),
      (∀ v ∈ defaults, v.isSystem = false) →
      (∀ v ∈ pathRecs, v.isSystem = false) →
      flaggedCount (discover sl defaults pathRecs) ≤ 1 ∧
      (pathRecs = [] → flaggedCount (discover sl defaults pathRecs) = 0) ∧
      (∀ v rest, pathRecs = v :: rest →
        ∀ w ∈ (discover sl defaults pathRecs).versions, w.isSystem = true →
          firstPathMark sl defaults v = some w) := by
  intro sl defaults pathRecs hd hp
  refine ⟨(storeInv_foldPath hp (storeInv_addAll hd storeInv_emptyStore)).2,
    ?_, ?_⟩
  · intro hnil
    subst hnil
    refine (storeInv_addAll hd storeInv_emptyStore).1 ?_
    rw [addAll_pathVersion]
    rfl
  · intro v rest heq w hw hflag
    subst heq
    have hs0un : ∀ u ∈ (addAll sl emptyStore defaults).versions,
        u.isSystem = false :=
      unflagged_addAll (by intro u hu; simp [emptyStore] at hu) hd
    have hs0pv : (addAll sl emptyStore defaults).pathVersion = none := by
      rw [addAll_pathVersion]; rfl
    have hs0b : seenBound (addAll sl emptyStore defaults) :=
      seenBound_addAll defaults emptyStore seenBound_emptyStore
    rcases haa : addVersion sl (addAll sl emptyStore defaults) v with ⟨s1, idx⟩
    have hbd := @addVersion_bound sl (addAll sl emptyStore defaults) v hs0b
    rw [haa] at hbd
    have hs1pv : s1.pathVersion = none := by
      have h := addVersion_pathVersion sl (addAll sl emptyStore defaults) v
      rw [haa] at h
      rw [h, hs0pv]
    have hs1un : ∀ u ∈ s1.versions, u.isSystem = false := by
      intro u hu
      rcases addVersion_mem (show u ∈
          ((addVersion sl (addAll sl emptyStore defaults) v).1).versions by
        rw [haa]; exact hu) with h1 | h2
      · exact hs0un u h1
      · exact h2 ▸ hp v (List.mem_cons_self v rest)
    obtain ⟨w0, hg⟩ : ∃ w0, s1.versions.get? idx = some w0 :=
      ⟨_, List.get?_eq_get hbd.2⟩
    have hstep : addPathRecord sl (addAll sl emptyStore defaults) v =
        { s1 with
            versions := s1.versions.set idx { w0 with isSystem := true },
            pathVersion := some { w0 with isSystem := true } } := by
      simp only [addPathRecord]
      rw [haa, hs1pv, hg]
    have hfpm : firstPathMark sl defaults v =
        some { w0 with isSystem := true } := by
      simp only [firstPathMark]
      rw [haa]
      show (s1.versions.get? idx).map _ = _
      rw [hg]
      rfl
    have hw2 : w ∈ ((v :: rest).foldl (addPathRecord sl)
        (addAll sl emptyStore defaults)).versions := hw
    rw [List.foldl_cons, hstep] at hw2
    have hinv := @fold_flag_invariant sl { w0 with isSystem := true } rest
      { s1 with
          versions := s1.versions.set idx { w0 with isSystem := true },
          pathVersion := some { w0 with isSystem := true } }
      (fun x hx => hp x (List.mem_cons_of_mem v hx)) (by simp) ?_ w hw2 hflag
    · rw [hfpm, hinv]
    · intro x hx hxf
      rcases mem_of_mem_set hx with h1 | h2
      · exact absurd hxf (by simp [hs1un x h1])
      · exact h2

/-- Witness for C9 amended: a concrete discovery run — one default-probe
record and two PATH records — ends with at most one flagged record, which
is the first PATH yield (8.2.1, stored at the index returned for it) with
the flag set. -/
theorem discover_at_most_one_system_flag_witness :
    flaggedCount (discover (fun _ => []) [v8027] [v821, v812]) ≤ 1 ∧
    firstPathMark (fun _ => []) [v8027] v821 =
      some { v821 with isSystem := true } := by
  have h := discover_at_most_one_system_flag (fun _ => []) [v8027]
    [v821, v812] (by decide) (by decide)
  exact ⟨h.1, h.2.2 v821 [v812] rfl { v821 with isSystem := true }
    (by decide) (by decide)⟩

/-! ## Lemmas for addVersion deduplication -/

/-- Adding to the empty store always appends, registering the record's path
(and its symlink target when the resolution is non-empty) at index 0. -/
theorem addVersion_emptyStore (sl : List Char → List Char) (v : Version) :
    addVersion sl emptyStore v =
      ({ versions := [v],
         seen := if sl v.phpPath ≠ [] then
             [(sl v.phpPath, 0), (v.phpPath, 0)] else [(v.phpPath, 0)],
         pathVersion := none }, 0) := by
  by_cases h : sl v.phpPath = [] <;>
    simp [addVersion, seenLookup, emptyStore, h]

/-- The second addition of a colliding record (same path, or related through
symlink resolution) replaces the stored one exactly when its capability
score is strictly higher. -/
theorem addVersion_dedup_core (sl : List Char → List Char) (v1 v2 : Version)
    (H : v2.phpPath = v1.phpPath ∨
      (sl v2.phpPath = v1.phpPath ∧ v1.phpPath ≠ []) ∨
      (sl v1.phpPath = v2.phpPath ∧ v2.phpPath ≠ [])) :
    ((addVersion sl (addVersion sl emptyStore v1).1 v2).1).versions =
      [if capScore v1 < capScore v2 then v2 else v1] := by
  rw [addVersion_emptyStore]
  by_cases hQP : v2.phpPath = v1.phpPath
  · by_cases h1 : sl v1.phpPath = []
    · simp only [addVersion, seenLookup, List.find?, h1, hQP]
      simp
      split <;> rfl
    · by_cases hspp : sl v1.phpPath = v1.phpPath
      · have h1' : v1.phpPath ≠ [] := hspp ▸ h1
        simp only [addVersion, seenLookup, List.find?, h1, hQP, hspp]
        simp [h1, h1', hspp]
        split <;> rfl
      · simp only [addVersion, seenLookup, List.find?, h1, hQP, hspp]
        simp [h1, hspp]
        split <;> rfl
  · rcases H with h | ⟨h2a, h2b⟩ | ⟨h3a, h3b⟩
    · exact absurd h hQP
    · have hQP' : v1.phpPath ≠ v2.phpPath := fun h => hQP h.symm
      have hs2 : sl v2.phpPath ≠ [] := h2a ▸ h2b
      by_cases h1 : sl v1.phpPath = []
      · simp only [addVersion, seenLookup, List.find?, h1, h2a, hQP, hQP']
        simp [hQP', h2b]
        split <;> rfl
      · by_cases hQsl : v2.phpPath = sl v1.phpPath
        · simp only [addVersion, seenLookup, List.find?, h1, hQsl]
          simp [h1, hQsl]
          split <;> rfl
        · have hQsl' : sl v1.phpPath ≠ v2.phpPath := fun h => hQsl h.symm
          by_cases hspp : sl v1.phpPath = v1.phpPath
          · have h1' : v1.phpPath ≠ [] := hspp ▸ h1
            simp only [addVersion, seenLookup, List.find?, h1, h2a, hQP,
              hQP', hQsl', hspp]
            simp [h1, h1', hQP', hQsl', hspp, h2b]
            split <;> rfl
          · simp only [addVersion, seenLookup, List.find?, h1, h2a, hQP,
              hQP', hQsl', hspp]
            simp [h1, hQP', hQsl', hspp, h2b]
            split <;> rfl
    · have hQP' : v1.phpPath ≠ v2.phpPath := fun h => hQP h.symm
      have h1 : sl v1.phpPath ≠ [] := h3a ▸ h3b
      simp only [addVersion, seenLookup, List.find?, h1, h3a, h3b]
      simp [h1, h3a, h3b]
      split <;> rfl

/-- C6: adding two records for the same installation — identical binary
path, or one path symlink-resolving to the other — leaves exactly one stored
record, in either arrival order: the one whose serving capability ranks
higher under FPM(2) > CGI(1) > CLI-only(0), the stored record being replaced
only when the newcomer's rank is strictly higher. -/
theorem addVersion_dedup_keeps_higher :
    ∀ (sl : List Char → List Char) (v1 v2 : Version),
      (v2.phpPath = v1.phpPath ∨
        (sl v2.phpPath = v1.phpPath ∧ v1.phpPath ≠ []) ∨
        (sl v1.phpPath = v2.phpPath ∧ v2.phpPath ≠ [])) →
      ((addVersion sl (addVersion sl emptyStore v1).1 v2).1).versions =
        [if capScore v1 < capScore v2 then v2 else v1] ∧
      ((addVersion sl (addVersion sl emptyStore v2).1 v1).1).versions =
        [if capScore v2 < capScore v1 then v1 else v2] := by
  intro sl v1 v2 H
  refine ⟨addVersion_dedup_core sl v1 v2 H, addVersion_dedup_core sl v2 v1 ?_⟩
  rcases H with hQP | ⟨h2a, h2b⟩ | ⟨h3a, h3b⟩
  · exact Or.inl hQP.symm
  · exact Or.inr (Or.inr ⟨h2a, h2b⟩)
  · exact Or.inr (Or.inl ⟨h3a, h3b⟩)

/-- Witness for C6: the 8.0.26 FPM-capable record versus a CLI-only record
at the same binary path — the FPM one survives both arrival orders. -/
theorem addVersion_dedup_keeps_higher_witness :
    ((addVersion (fun _ => []) (addVersion (fun _ => []) emptyStore
        v8026).1 (mkRecord [8, 0, 26] "8.0.26")).1).versions = [v8026] ∧
    ((addVersion (fun _ => []) (addVersion (fun _ => []) emptyStore
        (mkRecord [8, 0, 26] "8.0.26")).1 v8026).1).versions = [v8026] := by
  have h := addVersion_dedup_keeps_higher (fun _ => []) v8026
    (mkRecord [8, 0, 26] "8.0.26") (Or.inl rfl)
  refine ⟨?_, ?_⟩
  · rw [h.1]; decide
  · rw [h.2]; decide

/-- C7: against the test store extended with the FPM-capable 8.0.26 record,
the flavor-qualified request `"8.0-fpm"` resolves to the 8.0.26 record (the
FPM-capable match) — not to 8.0.27, which is a distinct record without FPM —
and with an empty warning. -/
theorem bestVersionWithFlavor_fpm_match :
    bestVersionWithFlavor testStoreFpm (str "8.0-fpm") (str "testing") =
      ⟨some v8026, str "testing", [], none⟩ ∧
    v8026 ≠ v8027 ∧ v8026.fpmPath ≠ [] := by
  exact ⟨by decide, by decide, by decide⟩

/-- C10: setting the forced-version variable to `"8"` — any non-empty value
without a dot — makes `BestVersionForDir` evaluate
`strings.Split(value, ".")[0:2]` on a one-element slice, a slice-bounds
runtime panic (modelled as `none`) instead of any `(record, source, warning,
error)` quadruple. -/
theorem bestVersionForDir_forced_no_dot_panics :
    bestVersionForDir testStore { forced := str "8" } = none ∧
    splitOnDot (str "8") = [str "8"] ∧
    goSlice (splitOnDot (str "8")) 0 2 = none := by
  exact ⟨by decide, by decide, by decide⟩

/-! ## Silence predicates for the resolver stages -/

/-- Stage 1 yields nothing: the forced-version variable is unset, or its
value survives the minor truncation but does not parse as a version. -/
def forcedSilent (env : DirEnv) : Prop :=
  env.forced = [] ∨
    ∃ parts, goSlice (splitOnDot env.forced) 0 2 = some parts ∧
      goNewVersion (joinDot parts) = none

/-- Stage 3 yields nothing: no composer.json found, or its platform-PHP
field fails to parse or is empty. -/
def composerSilent (env : DirEnv) : Prop :=
  env.composerJson = none ∨
    ∃ c d, env.composerJson = some (c, d) ∧
      (env.composerPlatformPhp c = none ∨ env.composerPlatformPhp c = some [])

/-- Stage 5a yields nothing: no `.symfony.cloud.yaml`, or its type field
fails to parse or lacks the `php:` prefix. -/
def cloudSilent (env : DirEnv) : Prop :=
  env.symfonyCloudYaml = none ∨
    ∃ c d, env.symfonyCloudYaml = some (c, d) ∧
      (env.yamlType c = none ∨
        ∃ t, env.yamlType c = some t ∧ (str "php:").isPrefixOf t = false)

/-- Stage 5b yields nothing: no `.platform.app.yaml`, or its type field
fails to parse or lacks the `php:` prefix. -/
def platformSilent (env : DirEnv) : Prop :=
  env.platformAppYaml = none ∨
    ∃ c d, env.platformAppYaml = some (c, d) ∧
      (env.yamlType c = none ∨
        ∃ t, env.yamlType c = some t ∧ (str "php:").isPrefixOf t = false)

theorem bvfd_of_forcedSilent {s : Store} {env : DirEnv}
    (h : forcedSilent env) :
    bestVersionForDir s env = some (bvfdPin s env) := by
  rcases h with h | ⟨parts, hp, hn⟩
  · simp [bestVersionForDir, h]
  · by_cases hf : env.forced = []
    · simp [bestVersionForDir, hf]
    · simp [bestVersionForDir, hf, hp, hn]

theorem bvfdComposer_of_silent {s : Store} {env : DirEnv}
    (h : composerSilent env) : bvfdComposer s env = bvfdWdPin s env := by
  rcases h with h | ⟨c, d, hcd, hsub⟩
  · simp [bvfdComposer, h]
  · rcases hsub with hn | he
    · simp [bvfdComposer, hcd, hn]
    · simp [bvfdComposer, hcd, he]

theorem bvfdCloud_of_silent {s : Store} {env : DirEnv}
    (h : cloudSilent env) : bvfdCloud s env = bvfdPlatform s env := by
  rcases h with h | ⟨c, d, hcd, hsub⟩
  · simp [bvfdCloud, h]
  · rcases hsub with hn | ⟨t, ht, hpre⟩
    · simp [bvfdCloud, hcd, hn]
    · simp [bvfdCloud, hcd, ht, hpre]

theorem bvfdPlatform_of_silent {s : Store} {env : DirEnv}
    (h : platformSilent env) : bvfdPlatform s env = fallbackVersion s [] := by
  rcases h with h | ⟨c, d, hcd, hsub⟩
  · simp [bvfdPlatform, h]
  · rcases hsub with hn | ⟨t, ht, hpre⟩
    · simp [bvfdPlatform, hcd, hn]
    · simp [bvfdPlatform, hcd, ht, hpre]

/-- C8: `BestVersionForDir` consults its five signals in strict priority
order — forced-version variable, `.php-version` from the script directory,
composer.json platform-PHP, `.php-version` from the working directory, then
the two cloud-descriptor YAML files — stopping at the first that yields a
version string and delegating it to `bestVersion`; only when every signal is
silent does it take the no-requirement fallback. (The forced values that hit
the slice panic of C10 fall under no conjunct here.) -/
theorem bestVersionForDir_priority_order :
    (∀ (s : Store) (env : DirEnv) (parts : List (List Char))
        (segs : List Nat),
        env.forced ≠ [] →
        goSlice (splitOnDot env.forced) 0 2 = some parts →
        goNewVersion (joinDot parts) = some segs →
        bestVersionForDir s env =
          some (bestVersion s (joinDot parts)
            (str "internal forced version"))) ∧
    (∀ (s : Store) (env : DirEnv) (c d : List Char),
        forcedSilent env → env.phpVersionPin = some (c, d) →
        bestVersionForDir s env =
          some (bestVersion s c
            (str ".php-version from current dir: " ++ d ++
              str "/.php-version"))) ∧
    (∀ (s : Store) (env : DirEnv) (c d p : List Char),
        forcedSilent env → env.phpVersionPin = none →
        env.composerJson = some (c, d) →
        env.composerPlatformPhp c = some p → p ≠ [] →
        bestVersionForDir s env =
          some (bestVersion s p
            (str "composer.json from current dir: " ++ d ++
              str "/composer.json"))) ∧
    (∀ (s : Store) (env : DirEnv) (c d : List Char),
        forcedSilent env → env.phpVersionPin = none → composerSilent env →
        env.workingDirPin = some (c, d) →
        bestVersionForDir s env =
          some (bestVersion s c
            (str ".php-version from working dir: " ++ d ++
              str "/.php-version"))) ∧
    (∀ (s : Store) (env : DirEnv) (c d t : List Char),
        forcedSilent env → env.phpVersionPin = none → composerSilent env →
        env.workingDirPin = none → env.symfonyCloudYaml = some (c, d) →
        env.yamlType c = some t → (str "php:").isPrefixOf t = true →
        bestVersionForDir s env =
          some (bestVersion s (t.drop 4)
            (str "SymfonyCloud: " ++ d ++ str "/.symfony.cloud.yaml"))) ∧
    (∀ (s : Store) (env : DirEnv) (c d t : List Char),
        forcedSilent env → env.phpVersionPin = none → composerSilent env →
        env.workingDirPin = none → cloudSilent env →
        env.platformAppYaml = some (c, d) →
        env.yamlType c = some t → (str "php:").isPrefixOf t = true →
        bestVersionForDir s env =
          some (bestVersion s (t.drop 4)
            (str "Platform.sh: " ++ d ++ str "/.platform.app.yaml"))) ∧
    (∀ (s : Store) (env : DirEnv),
        forcedSilent env → env.phpVersionPin = none → composerSilent env →
        env.workingDirPin = none → cloudSilent env → platformSilent env →
        bestVersionForDir s env = some (fallbackVersion s [])) := by
  refine ⟨?_, ?_, ?_, ?_, ?_, ?_, ?_⟩
  · intro s env parts segs hf hp hn
    simp [bestVersionForDir, hf, hp, hn]
  · intro s env c d hf hpin
    rw [bvfd_of_forcedSilent hf]
    simp [bvfdPin, hpin]
  · intro s env c d p hf hpin hcj hphp hne
    rw [bvfd_of_forcedSilent hf]
    simp [bvfdPin, hpin, bvfdComposer, hcj, hphp, hne]
  · intro s env c d hf hpin hcs hwd
    rw [bvfd_of_forcedSilent hf]
    rw [bvfdPin, hpin]
    rw [bvfdComposer_of_silent hcs]
    simp [bvfdWdPin, hwd]
  · intro s env c d t hf hpin hcs hwd hcloud hyaml hpre
    rw [bvfd_of_forcedSilent hf]
    rw [bvfdPin, hpin]
    rw [bvfdComposer_of_silent hcs]
    rw [bvfdWdPin, hwd]
    simp [bvfdCloud, hcloud, hyaml, hpre]
  · intro s env c d t hf hpin hcs hwd hcls hplat hyaml hpre
    rw [bvfd_of_forcedSilent hf]
    rw [bvfdPin, hpin]
    rw [bvfdComposer_of_silent hcs]
    rw [bvfdWdPin, hwd]
    rw [bvfdCloud_of_silent hcls]
    simp [bvfdPlatform, hplat, hyaml, hpre]
  · intro s env hf hpin hcs hwd hcls hps
    rw [bvfd_of_forcedSilent hf]
    rw [bvfdPin, hpin]
    rw [bvfdComposer_of_silent hcs]
    rw [bvfdWdPin, hwd]
    rw [bvfdCloud_of_silent hcls]
    rw [bvfdPlatform_of_silent hps]

/-- Witness for C8: with the forced variable unset, a `.php-version` pin
found at `/proj` wins and is delegated to `bestVersion`. -/
theorem bestVersionForDir_priority_order_witness :
    bestVersionForDir testStore
        { phpVersionPin := some (str "8.1", str "/proj") } =
      some (bestVersion testStore (str "8.1")
        (str ".php-version from current dir: " ++ str "/proj" ++
          str "/.php-version")) :=
  bestVersionForDir_priority_order.2.1 testStore
    { phpVersionPin := some (str "8.1", str "/proj") } (str "8.1")
    (str "/proj") (Or.inl rfl) rfl

end PhpStore
